import Mathlib

/-!
Verification development for the spike dashboard signal-delivery and
spike-extraction pipeline.  The definitions below are shallow embeddings of
the Python services in `app/services` and `app/routes`:

* `get_channel_data`            — `DatasetManager.get_channel_data`
* `detect_spikes`               — `SpikeDataProcessor._detect_spikes`
* `apply_filter`                — `FilterProcessor.apply_filter`
* `apply_filter_with_buffer`    — `FilterProcessor.apply_filter_with_buffer`
* `processChannel/get_real_data`— `SpikeDataProcessor.get_real_data`
* `precomputedSpikePeaks/...`   — `SpikeDataProcessor.get_precomputed_spike_data`
* `navigate_spike`              — `SpikeTimesManager.navigate_spike`
* `torchbciRows/load_preprocessed_torchbci` — `ClusteringManager` persistence
* `algorithm_waveform_normalize`— `_get_algorithm_waveforms` z-scoring

Sample values are modelled as rationals (`ℚ`), machine floats being exact on
all inputs used here; numpy calls with no repository source (scipy's
`butter`/`filtfilt`, `np.std`) are abstracted as explicit function
parameters, constrained only by properties that hold of the real routines.
-/

/-- Normalization of a Python slice bound for a sequence of length `n`
(negative indices count from the end, then the result is clamped to
`[0, n]`), as performed by CPython and numpy basic slicing. -/
def pySliceIdx (n : Nat) (i : Int) : Nat :=
  if i < 0 then ((n : Int) + i).toNat else min i.toNat n

/-- Python slice `l[s:e]` (step 1) on a list, including the negative-index
convention. -/
def pySlice {α : Type} (l : List α) (s e : Int) : List α :=
  (l.drop (pySliceIdx l.length s)).take (pySliceIdx l.length e - pySliceIdx l.length s)

/-- Python row indexing `a[i]` for a list of rows: a negative index counts
from the end.  An index out of range raises in Python; it is never reached
by the embedded code paths and is mapped to `[]` here. -/
def pyRowGet (a : List (List ℚ)) (i : Int) : List ℚ :=
  if 0 ≤ i then a.getD i.toNat [] else a.getD ((a.length : Int) + i).toNat []

/-- Second dimension of a 2-D array (`arr.shape[1]`): the common row length. -/
def shape1 (a : List (List ℚ)) : Nat := (a.headD []).length

/-- The numpy cast `astype(int64)` on a float value: truncation toward zero
(exact on the integral values the code stores). -/
def pyAstypeInt (q : ℚ) : Int := Int.tdiv q.num (q.den : Int)

/-- Floor of a rational, via floor division of numerator by (positive)
denominator. -/
def ratFloor (q : ℚ) : Int := Int.fdiv q.num (q.den : Int)

/-- The numpy rounding `np.round` on a scalar: round half to even. -/
def pyRound (q : ℚ) : Int :=
  let f := ratFloor q
  let r := q - (f : ℚ)
  if r < 1/2 then f
  else if 1/2 < r then f + 1
  else if f % 2 = 0 then f else f + 1

/-- The numpy mean `np.mean` of a 1-D array (the empty case, NaN in numpy,
is never reached by the embedded call sites). -/
def listMean (l : List ℚ) : ℚ := l.sum / (l.length : ℚ)

/-- Population variance of a 1-D array, i.e. the square of `np.std`.  Used
to express branch conditions of the form `np.std(l) > 0`, which hold iff
the variance is positive. -/
def listVariance (l : List ℚ) : ℚ :=
  (l.map (fun x => (x - listMean l) ^ 2)).sum / (l.length : ℚ)

/-- Index of the first occurrence of the minimum value (`np.argmin`). -/
def argminIdx (l : List ℚ) : Nat :=
  (List.range l.length).foldl (fun b i => if l.getD i 0 < l.getD b 0 then i else b) 0

/-- Index of the first occurrence of the maximum value (`np.argmax`). -/
def argmaxIdx (l : List ℚ) : Nat :=
  (List.range l.length).foldl (fun b i => if l.getD b 0 < l.getD i 0 then i else b) 0

/-- One iteration of the peak-scanning loop of
`SpikeDataProcessor._detect_spikes` (state: `in_spike`, `spike_start_idx`,
`spike_peaks`; `i` is the loop index). -/
def spikeScanStep (channel_data : List ℚ) (is_spike : List Bool) (invert_data : Bool)
    (st : Bool × Nat × List Nat) (i : Nat) : Bool × Nat × List Nat :=
  let n := is_spike.length
  let (in_spike, spike_start_idx, spike_peaks) := st
  if is_spike.getD i false = true ∧ ¬ in_spike then
    (true, i, spike_peaks)
  else if (is_spike.getD i false = false ∨ i = n - 1) ∧ in_spike then
    let spike_end_idx := if is_spike.getD i false = false then i else i + 1
    let spike_segment := (channel_data.drop spike_start_idx).take (spike_end_idx - spike_start_idx)
    let spike_peaks :=
      if 0 < spike_segment.length then
        spike_peaks ++ [spike_start_idx +
          (if invert_data then argmaxIdx spike_segment else argminIdx spike_segment)]
      else spike_peaks
    (false, spike_start_idx, spike_peaks)
  else st

/-- The full left-to-right peak scan of `_detect_spikes`. -/
def spikePeaksScan (channel_data : List ℚ) (is_spike : List Bool) (invert_data : Bool) :
    List Nat :=
  ((List.range is_spike.length).foldl
    (spikeScanStep channel_data is_spike invert_data) (false, 0, [])).2.2

/-- Embedding of `SpikeDataProcessor._detect_spikes`: with a threshold, a
sample is in-spike iff `value >= threshold` (inverted) or
`value <= threshold` (non-inverted), and peaks come from the scan loop;
with no threshold both the flag list (all `False`) and the peak list are
built directly. -/
def detect_spikes (channel_data : List ℚ) (spike_threshold : Option ℚ)
    (invert_data : Bool) : List Bool × List Nat :=
  match spike_threshold with
  | none => (List.replicate channel_data.length false, [])
  | some thr =>
    let is_spike := channel_data.map
      (fun v => if invert_data then decide (thr ≤ v) else decide (v ≤ thr))
    (is_spike, spikePeaksScan channel_data is_spike invert_data)

/-- Embedding of `FilterProcessor.apply_filter`.  The scipy Butterworth
design-and-apply pair (`butter` + `filtfilt`, at the fixed cutoffs, config
sampling rate and order of the source) is abstracted as the parameter
`flt`; `flt t l = none` models an exception raised anywhere inside the
`try` block, which the source catches, returning the input unchanged.  A
filter type other than the three supported ones returns the input
unchanged. -/
def apply_filter (flt : String → List ℚ → Option (List ℚ))
    (data : List ℚ) (filter_type : String) : List ℚ :=
  if filter_type = "highpass" ∨ filter_type = "lowpass" ∨ filter_type = "bandpass" then
    match flt filter_type data with
    | some filtered_data => filtered_data
    | none => data
  else data

/-- Embedding of `FilterProcessor.apply_filter_with_buffer`: re-fetch the
superset window `[start-buffer, end+buffer]` clamped to the data bounds,
filter it, slice out the sub-range at offset `start - buffer_start`, and
restore the original slice's mean for highpass/bandpass. -/
def apply_filter_with_buffer (flt : String → List ℚ → Option (List ℚ))
    (data : List ℚ) (full_data : List (List ℚ)) (channel_idx : Int)
    (start_time end_time : Int) (filter_type : String) (buffer_size : Int) : List ℚ :=
  let total_available : Int := shape1 full_data
  let buffer_start := max 0 (start_time - buffer_size)
  let buffer_end := min total_available (end_time + buffer_size)
  let buffered_data := pySlice (pyRowGet full_data channel_idx) buffer_start buffer_end
  let original_mean := listMean data
  let filtered_buffered := apply_filter flt buffered_data filter_type
  let offset := start_time - buffer_start
  let filtered_data := pySlice filtered_buffered offset (offset + (data.length : Int))
  if filter_type = "highpass" ∨ filter_type = "bandpass" then
    filtered_data.map (fun x => x + original_mean)
  else filtered_data

/-- Embedding of `DatasetManager.get_channel_data`: translate the 1-indexed
channel id, reject ids outside `[1, channel_count]`, clamp the time range
and slice. -/
def get_channel_data (data_array : Option (List (List ℚ)))
    (channel_id start_time end_time : Int) : Option (List ℚ) :=
  match data_array with
  | none => none
  | some arr =>
    let array_index := channel_id - 1
    if (arr.length : Int) ≤ array_index ∨ array_index < 0 then none
    else
      let total_available : Int := shape1 arr
      let s := max 0 start_time
      let e := min total_available end_time
      some (pySlice (pyRowGet arr array_index) s e)

/-- One per-channel record of the `/api/spike-data` response
(`data[channel_id]` in `SpikeDataProcessor.get_real_data`); `filteredData`
is present only when a filter was applied. -/
structure ChannelResult where
  data : List ℚ
  isSpike : List Bool
  spikePeaks : List Nat
  channelId : Int
  startTime : Int
  endTime : Int
  filteredData : Option (List Int)
deriving DecidableEq, Repr

/-- Body of the per-channel loop of `SpikeDataProcessor.get_real_data`
(`start_time`/`end_time` arrive already clamped by the caller, as in the
source): fetch the slice, optionally filter with buffer, select the series
per `data_type`, invert, detect, and assemble the record. -/
def processChannel (flt : String → List ℚ → Option (List ℚ))
    (arr : List (List ℚ)) (channel_id : Int) (spike_threshold : Option ℚ)
    (invert_data : Bool) (start_time end_time : Int)
    (data_type filter_type : String) : Option ChannelResult :=
  match get_channel_data (some arr) channel_id start_time end_time with
  | none => none
  | some channel_data =>
    let original_raw_data := channel_data
    let filtered_data : Option (List ℚ) :=
      if filter_type ≠ "none" then
        some (apply_filter_with_buffer flt channel_data arr (channel_id - 1)
          start_time end_time filter_type 100)
      else none
    let channel_data :=
      match filtered_data with
      | some fd =>
        if data_type = "spikes" then fd.map (fun q => ((pyRound q : Int) : ℚ))
        else if data_type = "filtered" then original_raw_data
        else channel_data
      | none => channel_data
    let channel_data := if invert_data then channel_data.map (fun q => -q) else channel_data
    let filtered_data :=
      if invert_data then filtered_data.map (fun fd => fd.map (fun q => -q)) else filtered_data
    let det := detect_spikes channel_data spike_threshold invert_data
    some {
      data := channel_data
      isSpike := det.1
      spikePeaks := det.2
      channelId := channel_id
      startTime := start_time
      endTime := end_time
      filteredData := filtered_data.map (fun fd => fd.map pyRound) }

/-- Embedding of `SpikeDataProcessor.get_real_data`.  The Python result is
a dict keyed by channel id built in request order; it is modelled as the
association list of `(channel_id, record)` pairs (a duplicated requested id
reproduces the identical record, so the two representations describe the
same mapping). -/
def get_real_data (flt : String → List ℚ → Option (List ℚ))
    (data_array : Option (List (List ℚ))) (channels : List Int)
    (spike_threshold : Option ℚ) (invert_data : Bool)
    (start_time end_time : Int) (data_type filter_type : String) :
    List (Int × ChannelResult) :=
  match data_array with
  | none => []
  | some arr =>
    let total_available : Int := shape1 arr
    let start_time := max 0 start_time
    let end_time := min total_available end_time
    channels.filterMap (fun channel_id =>
      (processChannel flt arr channel_id spike_threshold invert_data
        start_time end_time data_type filter_type).map (fun r => (channel_id, r)))

/-- The hard cap applied by the `/api/spike-data` route
(`end_time = min(end_time, start_time + max_points)` with
`max_points = 20000`). -/
def clampEndTime (start_time end_time : Int) : Int := min end_time (start_time + 20000)

/-- Window-relative spike offsets of `get_precomputed_spike_data`: the
recorded spike times falling in `[start_time, end_time)`, shifted by
`-start_time`. -/
def precomputedSpikePeaks (spike_times_list : List Int) (start_time end_time : Int) :
    List Int :=
  (spike_times_list.filter (fun t => decide (start_time ≤ t ∧ t < end_time))).map
    (fun t => t - start_time)

/-- One step of the ±5 marking loop of `get_precomputed_spike_data`
(`offset` runs over `range(-spike_window, spike_window + 1)`, encoded as
`o - 5` for `o` in `range 11`). -/
def markStep (peak_idx : Int) (acc : List Bool) (o : Nat) : List Bool :=
  let idx := peak_idx + ((o : Int) - 5)
  if 0 ≤ idx ∧ idx < (acc.length : Int) then acc.set idx.toNat true else acc

/-- Marking of the ±5-sample neighborhood of one spike peak. -/
def markIsSpike (acc : List Bool) (peak_idx : Int) : List Bool :=
  (List.range 11).foldl (markStep peak_idx) acc

/-- The `is_spike` overlay of `get_precomputed_spike_data`: start from all
`False` over the returned window and mark every peak's neighborhood. -/
def precomputedIsSpike (data_len : Nat) (spike_peaks : List Int) : List Bool :=
  spike_peaks.foldl markIsSpike (List.replicate data_len false)

/-- A value stored under one channel key of a per-channel spike-times
dict.  `load_spike_times` converts tensor values to numpy arrays and keeps
any other loaded value (e.g. a plain Python list) as is, so both shapes
reach `navigate_spike`. -/
inductive ChannelSpikes where
  | pylist (times : List Int)
  | ndarray (times : List Int)
deriving DecidableEq, Repr

/-- The sample-index payload of a per-channel value: the gather loop
extends `all_spikes` by the list itself or by `channel_spikes.tolist()`,
which enumerate the same elements. -/
def spikeList : ChannelSpikes → List Int
  | .pylist times => times
  | .ndarray times => times

/-- Python truthiness of a per-channel value, as forced by the `or` in
`navigate_spike`: a list is truthy iff nonempty; `bool()` of a numpy
array raises `ValueError` for more than one element and is the element's
own truthiness for exactly one element (the zero-element array, falsy
under numpy 1.x, is modelled as falsy; no theorem below relies on that
case). -/
def pyTruthy : ChannelSpikes → Except String Bool
  | .pylist times => .ok (!times.isEmpty)
  | .ndarray [] => .ok false
  | .ndarray [t] => .ok (decide (t ≠ 0))
  | .ndarray (_ :: _ :: _) => .error "ValueError"

/-- The loaded spike-times store of `SpikeTimesManager`: either one global
array of sample indices, or a per-channel dict whose entry for a channel
may sit under the integer channel id or under its string form — the two
key spaces are modelled as separate association lists, both keyed by the
channel id they denote. -/
inductive SpikeTimesData where
  | global (times : List Int)
  | perChannel (intKeyed strKeyed : List (Int × ChannelSpikes))
deriving DecidableEq, Repr

/-- The per-channel gather loop of `navigate_spike`:
`channel_spikes = spike_times_data.get(cid) or spike_times_data.get(str(cid))`
followed by `if channel_spikes is not None: all_spikes.extend(...)`.
Python's `or` evaluates the truthiness of the first `get` only — raising
on a multi-element array value — and returns the second `get`'s result
unexamined when the first is `None` or falsy; the loop then extends by any
non-`None` result.  An uncaught exception aborts the whole gather. -/
def gatherSpikes (intKeyed strKeyed : List (Int × ChannelSpikes)) :
    List Int → List Int → Except String (List Int)
  | acc, [] => .ok acc
  | acc, channel_id :: rest =>
    match intKeyed.lookup channel_id with
    | some v =>
      match pyTruthy v with
      | .error e => .error e
      | .ok true => gatherSpikes intKeyed strKeyed (acc ++ spikeList v) rest
      | .ok false =>
        match strKeyed.lookup channel_id with
        | some w => gatherSpikes intKeyed strKeyed (acc ++ spikeList w) rest
        | none => gatherSpikes intKeyed strKeyed acc rest
    | none =>
      match strKeyed.lookup channel_id with
      | some w => gatherSpikes intKeyed strKeyed (acc ++ spikeList w) rest
      | none => gatherSpikes intKeyed strKeyed acc rest

/-- The spike times gathered by `SpikeTimesManager.navigate_spike` before
sorting: the global array's list, or the per-channel gather, which may
raise (see `pyTruthy`). -/
def allSpikes : SpikeTimesData → List Int → Except String (List Int)
  | .global times, _ => .ok times
  | .perChannel intKeyed strKeyed, channels => gatherSpikes intKeyed strKeyed [] channels

/-- An integer-keyed entry that passes the gather's truthiness test
without raising and without losing its payload: any plain list, or a
single-element array holding a nonzero time. -/
def entryUnionSafe : ChannelSpikes → Prop
  | .pylist _ => True
  | .ndarray [t] => t ≠ 0
  | .ndarray _ => False

/-- The spike times one channel contributes when its entry sits under
exactly one of the two key forms: that entry's payload. -/
def channelPayload (intKeyed strKeyed : List (Int × ChannelSpikes))
    (channel_id : Int) : List Int :=
  match intKeyed.lookup channel_id with
  | some v => spikeList v
  | none =>
    match strKeyed.lookup channel_id with
    | some w => spikeList w
    | none => []

/-- Python's `sorted(set(xs))`. -/
def sortedUnique (l : List Int) : List Int :=
  List.insertionSort (fun a b => a ≤ b) l.dedup

/-- Embedding of `SpikeTimesManager.navigate_spike`: gather the requested
channels' spike times (which may raise, `.error`), then scan the sorted
unique times for the first one strictly after (`next`) or strictly before
(any other direction, i.e. `prev`) `current_time`, wrapping to the first
or last spike time when the scan finds none; `.ok none` is the Python
`None` result. -/
def navigate_spike (spike_times_data : Option SpikeTimesData) (current_time : Int)
    (direction : String) (channels : List Int) :
    Except String (Option (Int × Nat)) :=
  match spike_times_data with
  | none => .ok none
  | some d =>
    match allSpikes d channels with
    | .error e => .error e
    | .ok all_spikes =>
      if all_spikes.isEmpty then .ok none
      else
        let unique_spikes := sortedUnique all_spikes
        let n := unique_spikes.length
        if direction = "next" then
          match unique_spikes.find? (fun s => decide (current_time < s)) with
          | some target_spike => .ok (some (target_spike, n))
          | none => .ok (unique_spikes.head?.map (fun s => (s, n)))
        else
          match unique_spikes.reverse.find? (fun s => decide (s < current_time)) with
          | some target_spike => .ok (some (target_spike, n))
          | none => .ok (unique_spikes.getLast?.map (fun s => (s, n)))

/-- One spike entry of a stored clustering result
(`clustering_results[cluster][i]`): projection coordinates, 1-indexed
source channel, absolute sample time, and index within the cluster. -/
structure SpikeRec where
  x : ℚ
  y : ℚ
  channel : Int
  time : Int
  spikeIndex : Nat
deriving DecidableEq, Repr

/-- One row of the persisted flat array `[x, y, cluster_id, time, channel]`
(a float64 row; every stored component is integral except `x`/`y`). -/
structure TorchRow where
  x : ℚ
  y : ℚ
  cluster_id : ℚ
  time : ℚ
  channel : ℚ
deriving DecidableEq, Repr

/-- The row written for one spike of cluster `cluster_idx` by
`_save_torchbci_results_to_file`. -/
def spikeRow (cluster_idx : Nat) (s : SpikeRec) : TorchRow :=
  { x := s.x, y := s.y, cluster_id := (cluster_idx : ℚ),
    time := (s.time : ℚ), channel := (s.channel : ℚ) }

/-- The nested row-building loop of `_save_torchbci_results_to_file`,
started at cluster index `k` (the source enumerates from 0). -/
def torchbciRowsFrom : Nat → List (List SpikeRec) → List TorchRow
  | _, [] => []
  | k, cluster_spikes :: rest =>
    cluster_spikes.map (spikeRow k) ++ torchbciRowsFrom (k + 1) rest

/-- The flat row list persisted by `_save_torchbci_results_to_file` (the
source skips the `np.save` when this list is empty). -/
def torchbciRows (results : List (List SpikeRec)) : List TorchRow :=
  torchbciRowsFrom 0 results

/-- The `for i, idx in enumerate(np.where(mask)[0])` rebuild loop of
`load_preprocessed_torchbci`, over the rows selected for one cluster, with
`i` starting at `start_idx`. -/
def buildCluster : Nat → List TorchRow → List SpikeRec
  | _, [] => []
  | i, r :: rest =>
    { x := r.x, y := r.y, channel := pyAstypeInt r.channel,
      time := pyAstypeInt r.time, spikeIndex := i } :: buildCluster (i + 1) rest

/-- Embedding of `ClusteringManager.load_preprocessed_torchbci`: group the
flat rows by their (sorted, deduplicated) integer cluster ids and rebuild
each cluster with dense spike indices. -/
def load_preprocessed_torchbci (arr : List TorchRow) : List (List SpikeRec) :=
  let cluster_ids := arr.map (fun r => pyAstypeInt r.cluster_id)
  let unique_clusters := sortedUnique cluster_ids
  unique_clusters.map (fun cid =>
    buildCluster 0 (arr.filter (fun r => decide (pyAstypeInt r.cluster_id = cid))))

/-- A cluster with its spike indices re-densified from `start`, the shape
`load_preprocessed_torchbci` rebuilds (all other fields preserved). -/
def reindexFrom : Nat → List SpikeRec → List SpikeRec
  | _, [] => []
  | i, s :: rest =>
    { x := s.x, y := s.y, channel := s.channel, time := s.time, spikeIndex := i } ::
      reindexFrom (i + 1) rest

/-- The persistence-relevant fields of a spike: everything except the
(re-densified) intra-cluster index. -/
def spikeKey (s : SpikeRec) : ℚ × ℚ × Int × Int := (s.x, s.y, s.time, s.channel)

/-- Embedding of the waveform normalization of `_get_algorithm_waveforms`
(route `clustering.py`): for a nonempty window compute the mean and the
standard deviation and z-score only when the latter is positive.  `std_of`
abstracts `np.std`; the real routine satisfies
`0 < np.std l ↔ 0 < listVariance l` and returns `0` on constant windows. -/
def algorithm_waveform_normalize (std_of : List ℚ → ℚ) (waveform : List ℚ) : List ℚ :=
  if 0 < waveform.length then
    let mean := listMean waveform
    let std := std_of waveform
    if 0 < std then waveform.map (fun x => (x - mean) / std) else waveform
  else waveform

/-! ### General list lemmas used by several claims -/

theorem sorted_find?_least {p : Int → Bool} :
    ∀ {l : List Int}, l.Sorted (· ≤ ·) → ∀ {s : Int}, l.find? p = some s →
      p s = true ∧ s ∈ l ∧ ∀ x ∈ l, p x = true → s ≤ x := by
  intro l
  induction l with
  | nil => intro _ s h; simp at h
  | cons a l ih =>
    intro hs s h
    rcases List.sorted_cons.mp hs with ⟨ha, hl⟩
    by_cases hpa : p a = true
    · rw [List.find?_cons_of_pos _ hpa] at h
      injection h with h
      subst h
      refine ⟨hpa, List.mem_cons_self _ _, ?_⟩
      intro x hx _
      rcases List.mem_cons.mp hx with rfl | hx
      · exact le_refl _
      · exact ha x hx
    · rw [List.find?_cons_of_neg _ hpa] at h
      obtain ⟨h1, h2, h3⟩ := ih hl h
      refine ⟨h1, List.mem_cons_of_mem _ h2, ?_⟩
      intro x hx hpx
      rcases List.mem_cons.mp hx with rfl | hx
      · exact absurd hpx hpa
      · exact h3 x hx hpx

theorem sorted_desc_find?_greatest {p : Int → Bool} :
    ∀ {l : List Int}, l.Pairwise (fun a b => b ≤ a) → ∀ {s : Int}, l.find? p = some s →
      p s = true ∧ s ∈ l ∧ ∀ x ∈ l, p x = true → x ≤ s := by
  intro l
  induction l with
  | nil => intro _ s h; simp at h
  | cons a l ih =>
    intro hs s h
    rcases List.pairwise_cons.mp hs with ⟨ha, hl⟩
    by_cases hpa : p a = true
    · rw [List.find?_cons_of_pos _ hpa] at h
      injection h with h
      subst h
      refine ⟨hpa, List.mem_cons_self _ _, ?_⟩
      intro x hx _
      rcases List.mem_cons.mp hx with rfl | hx
      · exact le_refl _
      · exact ha x hx
    · rw [List.find?_cons_of_neg _ hpa] at h
      obtain ⟨h1, h2, h3⟩ := ih hl h
      refine ⟨h1, List.mem_cons_of_mem _ h2, ?_⟩
      intro x hx hpx
      rcases List.mem_cons.mp hx with rfl | hx
      · exact absurd hpx hpa
      · exact h3 x hx hpx

theorem mem_sortedUnique {x : Int} {l : List Int} : x ∈ sortedUnique l ↔ x ∈ l := by
  unfold sortedUnique
  rw [(List.perm_insertionSort _ _).mem_iff, List.mem_dedup]

theorem sortedUnique_sorted (l : List Int) :
    (sortedUnique l).Sorted (fun a b => a ≤ b) :=
  List.sorted_insertionSort _ _

theorem sortedUnique_ne_nil {l : List Int} (h : l ≠ []) : sortedUnique l ≠ [] := by
  intro hu
  apply h
  have hperm := List.perm_insertionSort (fun a b => a ≤ b) l.dedup
  unfold sortedUnique at hu
  rw [hu] at hperm
  exact (List.dedup_eq_nil _).mp hperm.symm.eq_nil

/-! ### C2: spike navigation -/

theorem navigate_spike_eq_next (d : SpikeTimesData) (chs : List Int) (t : Int)
    (all : List Int) (hall : allSpikes d chs = .ok all)
    (h : all.isEmpty = false) :
    navigate_spike (some d) t "next" chs =
      match (sortedUnique all).find? (fun s => decide (t < s)) with
      | some s => .ok (some (s, (sortedUnique all).length))
      | none => .ok ((sortedUnique all).head?.map
          (fun s => (s, (sortedUnique all).length))) := by
  simp only [navigate_spike, hall]
  simp only [h, Bool.false_eq_true, if_false]
  rw [if_pos trivial]

theorem navigate_spike_eq_prev (d : SpikeTimesData) (chs : List Int) (t : Int)
    (all : List Int) (hall : allSpikes d chs = .ok all)
    (h : all.isEmpty = false) :
    navigate_spike (some d) t "prev" chs =
      match (sortedUnique all).reverse.find? (fun s => decide (s < t)) with
      | some s => .ok (some (s, (sortedUnique all).length))
      | none => .ok ((sortedUnique all).getLast?.map
          (fun s => (s, (sortedUnique all).length))) := by
  simp only [navigate_spike, hall]
  simp only [h, Bool.false_eq_true, if_false]
  rw [if_neg (by decide : ¬ ("prev" : String) = "next")]

theorem pyTruthy_error (v : ChannelSpikes) (e : String) (h : pyTruthy v = .error e) :
    e = "ValueError" := by
  match v with
  | .pylist l => simp [pyTruthy] at h
  | .ndarray [] => simp [pyTruthy] at h
  | .ndarray [t] => simp [pyTruthy] at h
  | .ndarray (a :: b :: l) =>
    simp [pyTruthy] at h
    exact h.symm

theorem gatherSpikes_union (intKeyed strKeyed : List (Int × ChannelSpikes)) :
    ∀ (chs : List Int) (acc : List Int),
      (∀ cid ∈ chs, intKeyed.lookup cid = none ∨ strKeyed.lookup cid = none) →
      (∀ cid ∈ chs, ∀ v, intKeyed.lookup cid = some v → entryUnionSafe v) →
      gatherSpikes intKeyed strKeyed acc chs =
        .ok (chs.foldl (fun a cid => a ++ channelPayload intKeyed strKeyed cid) acc) := by
  intro chs
  induction chs with
  | nil => intro acc _ _; rfl
  | cons cid rest ih =>
    intro acc hexcl hsafe
    have hexcl' : ∀ c ∈ rest, intKeyed.lookup c = none ∨ strKeyed.lookup c = none :=
      fun c hc => hexcl c (List.mem_cons_of_mem _ hc)
    have hsafe' : ∀ c ∈ rest, ∀ v, intKeyed.lookup c = some v → entryUnionSafe v :=
      fun c hc => hsafe c (List.mem_cons_of_mem _ hc)
    rw [List.foldl_cons]
    cases hint : intKeyed.lookup cid with
    | none =>
      cases hstr : strKeyed.lookup cid with
      | none =>
        simp only [gatherSpikes, hint, hstr, channelPayload, List.append_nil]
        exact ih acc hexcl' hsafe'
      | some w =>
        simp only [gatherSpikes, hint, hstr, channelPayload]
        exact ih (acc ++ spikeList w) hexcl' hsafe'
    | some v =>
      have hv := hsafe cid (List.mem_cons_self _ _) v hint
      cases v with
      | pylist l =>
        cases l with
        | nil =>
          have hstr : strKeyed.lookup cid = none :=
            (hexcl cid (List.mem_cons_self _ _)).resolve_left (by rw [hint]; simp)
          simp only [gatherSpikes, hint, pyTruthy, List.isEmpty_nil, Bool.not_true,
            hstr, channelPayload, spikeList, List.append_nil]
          exact ih acc hexcl' hsafe'
        | cons a l' =>
          simp only [gatherSpikes, hint, pyTruthy, List.isEmpty_cons, Bool.not_false,
            channelPayload, spikeList]
          exact ih (acc ++ (a :: l')) hexcl' hsafe'
      | ndarray l =>
        match l, hv with
        | [t], hv =>
          have ht : t ≠ 0 := hv
          simp only [gatherSpikes, hint, pyTruthy, decide_eq_true ht,
            channelPayload, spikeList]
          exact ih (acc ++ [t]) hexcl' hsafe'

theorem gatherSpikes_error (intKeyed strKeyed : List (Int × ChannelSpikes)) :
    ∀ (chs : List Int) (acc : List Int) (cid : Int) (l : List Int), cid ∈ chs →
      intKeyed.lookup cid = some (.ndarray l) → 2 ≤ l.length →
      gatherSpikes intKeyed strKeyed acc chs = .error "ValueError" := by
  intro chs
  induction chs with
  | nil => intro acc cid l h; simp at h
  | cons c rest ih =>
    intro acc cid l hmem hlook hlen
    rcases List.mem_cons.mp hmem with rfl | hmem'
    · match l, hlen with
      | a :: b :: l', _ => simp [gatherSpikes, hlook, pyTruthy]
    · cases hint : intKeyed.lookup c with
      | none =>
        cases hstr : strKeyed.lookup c with
        | none =>
          simp only [gatherSpikes, hint, hstr]
          exact ih acc cid l hmem' hlook hlen
        | some w =>
          simp only [gatherSpikes, hint, hstr]
          exact ih (acc ++ spikeList w) cid l hmem' hlook hlen
      | some v =>
        cases hpt : pyTruthy v with
        | error e =>
          simp only [gatherSpikes, hint, hpt]
          rw [pyTruthy_error v e hpt]
        | ok b =>
          cases b with
          | true =>
            simp only [gatherSpikes, hint, hpt]
            exact ih (acc ++ spikeList v) cid l hmem' hlook hlen
          | false =>
            cases hstr : strKeyed.lookup c with
            | none =>
              simp only [gatherSpikes, hint, hpt, hstr]
              exact ih acc cid l hmem' hlook hlen
            | some w =>
              simp only [gatherSpikes, hint, hpt, hstr]
              exact ih (acc ++ spikeList w) cid l hmem' hlook hlen

/-- C2 counterexample: the per-channel store `{1: array([100, 500])}` —
the shape `load_spike_times` produces from a dict of tensors, keyed by the
integer channel id.  Evaluating
`spike_times_data.get(1) or spike_times_data.get('1')` applies `bool()`
to the two-element array and raises `ValueError`, so navigation errors out
instead of returning 100, the nearest spike strictly after 0 in the
union. -/
theorem navigate_spike_counterexample :
    navigate_spike (some (.perChannel [(1, .ndarray [100, 500])] [])) 0 "next" [1] =
      .error "ValueError" ∧
    navigate_spike (some (.perChannel [(1, .ndarray [100, 500])] [])) 0 "next" [1] ≠
      .ok (some (100, 2)) := by
  constructor
  · rfl
  · exact fun h => Except.noConfusion h

/-- C2 (amended): spike navigation returns the nearest spike time strictly
greater than (`next`) or strictly less than (`prev`) `current_time` among
the gathered spike times, wrapping to the smallest (`next`) or largest
(`prev`) when none exists in the requested direction; the gathered times
are exactly the union of the requested channels' precomputed spike times
whenever each requested channel's entry sits under only one key form and
every integer-keyed entry is a plain list or a truthy single-element
array.  An integer-keyed multi-element array entry instead makes the
gather raise `ValueError`, and an integer-keyed single-element array
holding time 0 is silently dropped.  For spike times `[100, 500, 900]`:
`950/next ↦ 100`, `50/prev ↦ 900`, `500/prev ↦ 100`. -/
theorem navigate_spike_corrected :
    (∀ (d : SpikeTimesData) (chs : List Int) (t : Int) (all : List Int),
      allSpikes d chs = .ok all → all ≠ [] →
      ∃ s n, navigate_spike (some d) t "next" chs = .ok (some (s, n)) ∧
        s ∈ all ∧
        ((∃ x ∈ all, t < x) → t < s ∧ ∀ x ∈ all, t < x → s ≤ x) ∧
        ((∀ x ∈ all, x ≤ t) → ∀ x ∈ all, s ≤ x)) ∧
    (∀ (d : SpikeTimesData) (chs : List Int) (t : Int) (all : List Int),
      allSpikes d chs = .ok all → all ≠ [] →
      ∃ s n, navigate_spike (some d) t "prev" chs = .ok (some (s, n)) ∧
        s ∈ all ∧
        ((∃ x ∈ all, x < t) → s < t ∧ ∀ x ∈ all, x < t → x ≤ s) ∧
        ((∀ x ∈ all, t ≤ x) → ∀ x ∈ all, x ≤ s)) ∧
    (∀ (intKeyed strKeyed : List (Int × ChannelSpikes)) (chs : List Int),
      (∀ cid ∈ chs, intKeyed.lookup cid = none ∨ strKeyed.lookup cid = none) →
      (∀ cid ∈ chs, ∀ v, intKeyed.lookup cid = some v → entryUnionSafe v) →
      allSpikes (.perChannel intKeyed strKeyed) chs =
        .ok (chs.foldl (fun a cid => a ++ channelPayload intKeyed strKeyed cid) [])) ∧
    (∀ (intKeyed strKeyed : List (Int × ChannelSpikes)) (chs : List Int) (cid : Int)
      (l : List Int), cid ∈ chs → intKeyed.lookup cid = some (.ndarray l) →
      2 ≤ l.length →
      allSpikes (.perChannel intKeyed strKeyed) chs = .error "ValueError") ∧
    allSpikes (.perChannel [(1, .ndarray [0])] []) [1] = .ok [] ∧
    navigate_spike (some (.global [100, 500, 900])) 950 "next" [] = .ok (some (100, 3)) ∧
    navigate_spike (some (.global [100, 500, 900])) 50 "prev" [] = .ok (some (900, 3)) ∧
    navigate_spike (some (.global [100, 500, 900])) 500 "prev" [] = .ok (some (100, 3)) := by
  refine ⟨?_, ?_, ?_, ?_, rfl, rfl, rfl, rfl⟩
  · intro d chs t all hall hne
    have hie : all.isEmpty = false := by
      simpa [List.isEmpty_iff] using hne
    have hsorted := sortedUnique_sorted all
    have hmem : ∀ x : Int, x ∈ sortedUnique all ↔ x ∈ all := fun x => mem_sortedUnique
    have hnil : sortedUnique all ≠ [] := sortedUnique_ne_nil hne
    rw [navigate_spike_eq_next d chs t all hall hie]
    cases hf : (sortedUnique all).find? (fun s => decide (t < s)) with
    | some s =>
      obtain ⟨hp, hsmem, hleast⟩ := sorted_find?_least hsorted hf
      refine ⟨s, _, rfl, (hmem s).mp hsmem, ?_, ?_⟩
      · intro _
        refine ⟨by simpa using hp, ?_⟩
        intro x hx htx
        exact hleast x ((hmem x).mpr hx) (by simpa using htx)
      · intro hall' x hx
        exact absurd (hall' s ((hmem s).mp hsmem)) (not_le.mpr (by simpa using hp))
    | none =>
      have hnone := List.find?_eq_none.mp hf
      obtain ⟨a, l', hul⟩ := List.exists_cons_of_ne_nil hnil
      refine ⟨a, _, by rw [hul]; rfl, ?_, ?_, ?_⟩
      · exact (hmem a).mp (hul ▸ List.mem_cons_self a l')
      · rintro ⟨x, hx, htx⟩
        exact absurd htx (by simpa using hnone x ((hmem x).mpr hx))
      · intro _ x hx
        have hx' := (hmem x).mpr hx
        rw [hul] at hx' hsorted
        rcases List.sorted_cons.mp hsorted with ⟨ha, _⟩
        rcases List.mem_cons.mp hx' with rfl | hx''
        · exact le_refl _
        · exact ha x hx''
  · intro d chs t all hall hne
    have hie : all.isEmpty = false := by
      simpa [List.isEmpty_iff] using hne
    have hsorted := sortedUnique_sorted all
    have hrev : (sortedUnique all).reverse.Pairwise (fun a b => b ≤ a) :=
      List.pairwise_reverse.mpr hsorted
    have hmem : ∀ x : Int, x ∈ sortedUnique all ↔ x ∈ all := fun x => mem_sortedUnique
    have hnil : sortedUnique all ≠ [] := sortedUnique_ne_nil hne
    rw [navigate_spike_eq_prev d chs t all hall hie]
    cases hf : (sortedUnique all).reverse.find? (fun s => decide (s < t)) with
    | some s =>
      obtain ⟨hp, hsmem, hgreatest⟩ := sorted_desc_find?_greatest hrev hf
      rw [List.mem_reverse] at hsmem
      refine ⟨s, _, rfl, (hmem s).mp hsmem, ?_, ?_⟩
      · intro _
        refine ⟨by simpa using hp, ?_⟩
        intro x hx htx
        exact hgreatest x (List.mem_reverse.mpr ((hmem x).mpr hx)) (by simpa using htx)
      · intro hall' x hx
        exact absurd (hall' s ((hmem s).mp hsmem)) (not_le.mpr (by simpa using hp))
    | none =>
      have hnone := List.find?_eq_none.mp hf
      have hrnil : (sortedUnique all).reverse ≠ [] := by
        simpa using hnil
      obtain ⟨a, l', hul⟩ := List.exists_cons_of_ne_nil hrnil
      have hlast : (sortedUnique all).getLast? = some a := by
        rw [List.getLast?_eq_head?_reverse, hul]; rfl
      refine ⟨a, _, by rw [hlast]; rfl, ?_, ?_, ?_⟩
      · exact (hmem a).mp (List.mem_reverse.mp (hul ▸ List.mem_cons_self a l'))
      · rintro ⟨x, hx, htx⟩
        exact absurd htx
          (by simpa using hnone x (List.mem_reverse.mpr ((hmem x).mpr hx)))
      · intro _ x hx
        have hx' := List.mem_reverse.mpr ((hmem x).mpr hx)
        rw [hul] at hx' hrev
        rcases List.pairwise_cons.mp hrev with ⟨ha, _⟩
        rcases List.mem_cons.mp hx' with rfl | hx''
        · exact le_refl _
        · exact ha x hx''
  · intro intKeyed strKeyed chs hexcl hsafe
    exact gatherSpikes_union intKeyed strKeyed chs [] hexcl hsafe
  · intro intKeyed strKeyed chs cid l hmem hlook hlen
    exact gatherSpikes_error intKeyed strKeyed chs [] cid l hmem hlook hlen

/-- Witness for C2 (amended) at the concrete store `global [7]`,
`current_time = 3`, direction `next`. -/
theorem navigate_spike_corrected_witness :
    ∃ s n, navigate_spike (some (.global [7])) 3 "next" [] = .ok (some (s, n)) ∧
      s ∈ [(7 : Int)] ∧
      ((∃ x ∈ [(7 : Int)], (3 : Int) < x) →
        3 < s ∧ ∀ x ∈ [(7 : Int)], 3 < x → s ≤ x) ∧
      ((∀ x ∈ [(7 : Int)], x ≤ (3 : Int)) → ∀ x ∈ [(7 : Int)], s ≤ x) :=
  navigate_spike_corrected.1 (.global [7]) [] 3 [7] rfl (by decide)

/-! ### C3: threshold-crossing detection (end-of-window run) -/

/-- C3 (failing input): on `channel_data = [1, 0]` with threshold `0`,
non-inverted, the in-spike flags are `[false, true]` — so `[1, 1]` is a
maximal contiguous in-spike run — yet the scan emits no peak at all: the
run-start branch fires at the final index and shadows the run-closing
branch, so a run beginning at the last sample is dropped, contradicting
the stated "every maximal run produces exactly one peak". -/
theorem detect_spikes_last_sample_run_dropped :
    detect_spikes [(1:ℚ), 0] (some 0) false = ([false, true], []) := by decide

/-! ### C6: filtering never propagates an error -/

/-- C6: `apply_filter` is total and degrades to the identity: an unknown
filter kind returns the input unchanged, and a failure of the underlying
scipy design/application (modelled by `flt` returning `none`) is absorbed,
returning the original data. -/
theorem apply_filter_never_errors (flt : String → List ℚ → Option (List ℚ))
    (data : List ℚ) (filter_type : String) :
    (¬ (filter_type = "highpass" ∨ filter_type = "lowpass" ∨ filter_type = "bandpass") →
      apply_filter flt data filter_type = data) ∧
    (flt filter_type data = none → apply_filter flt data filter_type = data) := by
  constructor
  · intro h
    unfold apply_filter
    rw [if_neg h]
  · intro h
    unfold apply_filter
    split
    · rw [h]
    · rfl

/-- Witness for C6: an unrecognized kind `"wavelet"` and a failing
highpass application both return the input unchanged. -/
theorem apply_filter_never_errors_witness :
    apply_filter (fun _ _ => none) [(1:ℚ), 2] "wavelet" = [1, 2] ∧
    apply_filter (fun _ _ => none) [(1:ℚ), 2] "highpass" = [1, 2] :=
  ⟨(apply_filter_never_errors (fun _ _ => none) [(1:ℚ), 2] "wavelet").1 (by decide),
   (apply_filter_never_errors (fun _ _ => none) [(1:ℚ), 2] "highpass").2 rfl⟩

/-! ### C10: absent threshold disables detection -/

/-- C10: when the spike threshold is `None`, every channel record produced
by the channel-window query has an all-`False` spike flag of the same
length as its sample list, and an empty peak list. -/
theorem no_threshold_no_detection (flt : String → List ℚ → Option (List ℚ))
    (arr : List (List ℚ)) (channels : List Int) (invert_data : Bool)
    (start_time end_time : Int) (data_type filter_type : String)
    (channel_id : Int) (r : ChannelResult)
    (h : (channel_id, r) ∈ get_real_data flt (some arr) channels none invert_data
      start_time end_time data_type filter_type) :
    r.isSpike = List.replicate r.data.length false ∧ r.spikePeaks = [] := by
  unfold get_real_data at h
  simp only [List.mem_filterMap] at h
  obtain ⟨a, -, hp⟩ := h
  cases hproc : processChannel flt arr a none invert_data (max 0 start_time)
      (min (shape1 arr : Int) end_time) data_type filter_type with
  | none => rw [hproc] at hp; simp at hp
  | some r' =>
    rw [hproc] at hp
    simp only [Option.map_some', Option.some.injEq, Prod.mk.injEq] at hp
    obtain ⟨-, hr⟩ := hp
    subst hr
    unfold processChannel at hproc
    cases hcd : get_channel_data (some arr) a (max 0 start_time)
        (min (shape1 arr : Int) end_time) with
    | none => rw [hcd] at hproc; exact absurd hproc (by simp)
    | some cd =>
      rw [hcd] at hproc
      rw [Option.some_inj] at hproc
      subst hproc
      simp [detect_spikes]

/-- Witness for C10: the record returned for channel 1 of a loaded 1×2
recording with no threshold has flags `[false, false]` (all false, length
2) and no peaks. -/
theorem no_threshold_no_detection_witness :
    (⟨[(5:ℚ), 0], [false, false], [], 1, 0, 2, none⟩ : ChannelResult).isSpike =
      List.replicate
        (⟨[(5:ℚ), 0], [false, false], [], 1, 0, 2, none⟩ : ChannelResult).data.length false ∧
    (⟨[(5:ℚ), 0], [false, false], [], 1, 0, 2, none⟩ : ChannelResult).spikePeaks = [] :=
  no_threshold_no_detection (fun _ _ => none) [[5, 0]] [1] false 0 2 "raw" "none" 1 _ (by decide)

/-! ### C7: precomputed-time overlay -/

theorem markStep_length (p : Int) (a : List Bool) (o : Nat) :
    (markStep p a o).length = a.length := by
  simp only [markStep]
  split
  · simp [List.length_set]
  · rfl

theorem foldl_markStep_length (p : Int) (offs : List Nat) :
    ∀ a : List Bool, (offs.foldl (markStep p) a).length = a.length := by
  induction offs with
  | nil => intro a; rfl
  | cons o offs ih => intro a; rw [List.foldl_cons, ih, markStep_length]

theorem getD_set_true (l : List Bool) (j : Nat) (hj : j < l.length) :
    ∀ i : Nat, (l.set j true).getD i false = if i = j then true else l.getD i false := by
  induction l generalizing j with
  | nil => simp at hj
  | cons b l ih =>
    intro i
    cases j with
    | zero =>
      cases i with
      | zero => simp
      | succ i => simp
    | succ j =>
      cases i with
      | zero => simp
      | succ i =>
        simp only [List.set_cons_succ, List.getD_cons_succ, Nat.succ_eq_add_one,
          Nat.add_right_cancel_iff]
        exact ih j (by simpa using hj) i

theorem markStep_getD (p : Int) (a : List Bool) (o i : Nat) :
    ((markStep p a o).getD i false = true) ↔
      (a.getD i false = true ∨ ((i : Int) = p + ((o : Int) - 5) ∧ i < a.length)) := by
  simp only [markStep]
  split
  · next h =>
    rw [getD_set_true a _ (by omega) i]
    split
    · next hij =>
      simp only [true_iff]
      exact Or.inr (by omega)
    · next hij =>
      constructor
      · exact Or.inl
      · rintro (h' | ⟨h1, h2⟩)
        · exact h'
        · exact absurd (by omega : i = (p + ((o : Int) - 5)).toNat) hij
  · next h =>
    constructor
    · exact Or.inl
    · rintro (h' | ⟨h1, h2⟩)
      · exact h'
      · exact absurd ⟨by omega, by omega⟩ h

theorem foldl_markStep_getD (p : Int) (offs : List Nat) :
    ∀ (a : List Bool) (i : Nat),
      ((offs.foldl (markStep p) a).getD i false = true) ↔
        (a.getD i false = true ∨
          ∃ o ∈ offs, (i : Int) = p + ((o : Int) - 5) ∧ i < a.length) := by
  induction offs with
  | nil => simp
  | cons o offs ih =>
    intro a i
    rw [List.foldl_cons, ih (markStep p a o) i, markStep_getD, markStep_length]
    simp only [List.exists_mem_cons_iff]
    tauto

theorem markIsSpike_length (a : List Bool) (p : Int) :
    (markIsSpike a p).length = a.length :=
  foldl_markStep_length p (List.range 11) a

theorem markIsSpike_getD (a : List Bool) (p : Int) (i : Nat) :
    ((markIsSpike a p).getD i false = true) ↔
      (a.getD i false = true ∨ (i < a.length ∧ p - 5 ≤ (i : Int) ∧ (i : Int) ≤ p + 5)) := by
  unfold markIsSpike
  rw [foldl_markStep_getD]
  constructor
  · rintro (h | ⟨o, ho, heq, hlen⟩)
    · exact Or.inl h
    · have ho' : o < 11 := List.mem_range.mp ho
      exact Or.inr ⟨hlen, by omega, by omega⟩
  · rintro (h | ⟨hlen, h1, h2⟩)
    · exact Or.inl h
    · exact Or.inr ⟨((i : Int) - p + 5).toNat, List.mem_range.mpr (by omega), by omega, hlen⟩

theorem foldl_markIsSpike_getD (peaks : List Int) :
    ∀ (init : List Bool) (i : Nat),
      ((peaks.foldl markIsSpike init).getD i false = true) ↔
        (init.getD i false = true ∨
          ∃ p ∈ peaks, i < init.length ∧ p - 5 ≤ (i : Int) ∧ (i : Int) ≤ p + 5) := by
  induction peaks with
  | nil => simp
  | cons q peaks ih =>
    intro init i
    rw [List.foldl_cons, ih (markIsSpike init q) i, markIsSpike_getD, markIsSpike_length]
    simp only [List.exists_mem_cons_iff]
    tauto

theorem precomputedIsSpike_getD (n : Nat) (peaks : List Int) (i : Nat) :
    ((precomputedIsSpike n peaks).getD i false = true) ↔
      ∃ p ∈ peaks, i < n ∧ p - 5 ≤ (i : Int) ∧ (i : Int) ≤ p + 5 := by
  unfold precomputedIsSpike
  rw [foldl_markIsSpike_getD, List.length_replicate]
  have hrep : (List.replicate n false).getD i false = false := by
    cases Nat.lt_or_ge i n with
    | inl h => simp [List.getD_eq_getElem?_getD, List.getElem?_replicate, h]
    | inr h =>
      simp [List.getD_eq_getElem?_getD, List.getElem?_replicate, Nat.not_lt.mpr h]
  simp [hrep]

/-- C7: in precomputed-time mode every reported peak offset comes from a
recorded spike time inside `[start, end)`; every in-spike sample lies
within `[peak-5, peak+5]` of some such offset; and every recorded spike
time in `[start, end)` whose ±5 neighborhood meets the returned window
marks at least one in-spike sample there. -/
theorem precomputed_overlay_containment (times : List Int) (s e : Int) (n : Nat) :
    (∀ p ∈ precomputedSpikePeaks times s e, ∃ t ∈ times, s ≤ t ∧ t < e ∧ p = t - s) ∧
    (∀ i : Nat,
      (precomputedIsSpike n (precomputedSpikePeaks times s e)).getD i false = true →
      ∃ p ∈ precomputedSpikePeaks times s e, p - 5 ≤ (i : Int) ∧ (i : Int) ≤ p + 5) ∧
    (∀ t ∈ times, s ≤ t → t < e →
      (∃ idx : Int, 0 ≤ idx ∧ idx < (n : Int) ∧ t - s - 5 ≤ idx ∧ idx ≤ t - s + 5) →
      ∃ i : Nat, (i : Int) < (n : Int) ∧
        (precomputedIsSpike n (precomputedSpikePeaks times s e)).getD i false = true ∧
        t - s - 5 ≤ (i : Int) ∧ (i : Int) ≤ t - s + 5) := by
  refine ⟨?_, ?_, ?_⟩
  · intro p hp
    unfold precomputedSpikePeaks at hp
    rw [List.mem_map] at hp
    obtain ⟨t, ht, rfl⟩ := hp
    rw [List.mem_filter] at ht
    exact ⟨t, ht.1, by simpa using (of_decide_eq_true ht.2).1,
      by simpa using (of_decide_eq_true ht.2).2, rfl⟩
  · intro i h
    rw [precomputedIsSpike_getD] at h
    obtain ⟨p, hp, -, h1, h2⟩ := h
    exact ⟨p, hp, h1, h2⟩
  · rintro t ht hts hte ⟨idx, h0, hn, h1, h2⟩
    have hp : (t - s) ∈ precomputedSpikePeaks times s e := by
      unfold precomputedSpikePeaks
      rw [List.mem_map]
      exact ⟨t, List.mem_filter.mpr ⟨ht, decide_eq_true ⟨hts, hte⟩⟩, rfl⟩
    refine ⟨idx.toNat, by omega, ?_, by omega, by omega⟩
    rw [precomputedIsSpike_getD]
    exact ⟨t - s, hp, by omega, by omega, by omega⟩

/-- Witness for C7: spike time 10 in window `[0, 20)` of length 20 marks
sample 7 (within ±5 of the offset 10). -/
theorem precomputed_overlay_containment_witness :
    ∃ i : Nat, (i : Int) < ((20 : Nat) : Int) ∧
      (precomputedIsSpike 20 (precomputedSpikePeaks [10] 0 20)).getD i false = true ∧
      (10 : Int) - 0 - 5 ≤ (i : Int) ∧ (i : Int) ≤ 10 - 0 + 5 :=
  (precomputed_overlay_containment [10] 0 20 20).2.2 10 (by decide) (by decide) (by decide)
    ⟨7, by decide, by decide, by decide, by decide⟩

/-! ### C9: cluster waveform z-scoring -/

theorem listVariance_replicate (n : Nat) (c : ℚ) :
    listVariance (List.replicate n c) = 0 := by
  cases n with
  | zero => simp [listVariance, listMean]
  | succ n =>
    have hmean : listMean (List.replicate (n + 1) c) = c := by
      unfold listMean
      rw [List.sum_replicate, List.length_replicate, nsmul_eq_mul]
      exact mul_div_cancel_left₀ c (by exact_mod_cast Nat.succ_ne_zero n)
    unfold listVariance
    rw [hmean, List.map_replicate]
    simp

/-- C9 counterexample: for the constant window `[3, 3]` the standard
deviation is exactly `0` (`np.std` of a constant array; modelled by
`std_of := listVariance`, which agrees with `np.std` at this input since
both are `0`), so the code's `if std > 0` guard skips the whole
normalization and returns the window unchanged — `[3, 3]`, not the
all-zero sequence the claim requires. -/
theorem waveform_zscore_counterexample :
    algorithm_waveform_normalize listVariance [(3:ℚ), 3] = [3, 3] ∧
    ([(3:ℚ), 3] : List ℚ) ≠ [0, 0] := by
  constructor
  · norm_num [algorithm_waveform_normalize, listVariance, listMean]
  · simp

/-- C9 (amended): the z-score is applied only when the standard deviation
is positive; when it is zero (in particular on any constant window) the
window is returned entirely unnormalized — the mean is not subtracted
either.  `std_of` abstracts `np.std`, pinned down by the sign equivalence
with the population variance. -/
theorem waveform_zscore_amended (std_of : List ℚ → ℚ) (l : List ℚ)
    (hstd : 0 < std_of l ↔ 0 < listVariance l) :
    (0 < listVariance l →
      algorithm_waveform_normalize std_of l =
        l.map (fun x => (x - listMean l) / std_of l)) ∧
    (listVariance l = 0 → algorithm_waveform_normalize std_of l = l) ∧
    (∀ (c : ℚ) (n : Nat), l = List.replicate n c →
      algorithm_waveform_normalize std_of l = l) := by
  have h2 : listVariance l = 0 → algorithm_waveform_normalize std_of l = l := by
    intro hv
    have hns : ¬ 0 < std_of l := fun h => absurd (hstd.mp h) (by rw [hv]; exact lt_irrefl 0)
    unfold algorithm_waveform_normalize
    split
    · rw [if_neg hns]
    · rfl
  refine ⟨?_, h2, ?_⟩
  · intro hv
    have hl : l ≠ [] := by rintro rfl; simp [listVariance, listMean] at hv
    have hlen : 0 < l.length := List.length_pos.mpr hl
    unfold algorithm_waveform_normalize
    rw [if_pos hlen, if_pos (hstd.mpr hv)]
  · rintro c n rfl
    exact h2 (listVariance_replicate n c)

/-- Witness for C9 at the constant window `[4, 4, 4]`. -/
theorem waveform_zscore_amended_witness :
    algorithm_waveform_normalize listVariance [(4:ℚ), 4, 4] = [4, 4, 4] :=
  (waveform_zscore_amended listVariance [(4:ℚ), 4, 4] Iff.rfl).2.2 4 3 (by rfl)

/-! ### C5: buffered filtering -/

theorem apply_filter_length (flt : String → List ℚ → Option (List ℚ))
    (hflt : ∀ t l out, flt t l = some out → out.length = l.length)
    (data : List ℚ) (filter_type : String) :
    (apply_filter flt data filter_type).length = data.length := by
  unfold apply_filter
  split
  · cases hf : flt filter_type data with
    | none => rfl
    | some out => exact hflt filter_type data out hf
  · rfl

theorem pySlice_eq {α : Type} (l : List α) (s e : Int) (hs : 0 ≤ s)
    (hsl : s ≤ (l.length : Int)) (he : 0 ≤ e) (hel : e ≤ (l.length : Int)) :
    pySlice l s e = (l.drop s.toNat).take ((e - s).toNat) := by
  unfold pySlice pySliceIdx
  rw [if_neg (by omega), if_neg (by omega)]
  have h1 : min s.toNat l.length = s.toNat := by omega
  have h2 : min e.toNat l.length = e.toNat := by omega
  rw [h1, h2]
  congr 1
  omega

theorem pySlice_length {α : Type} (l : List α) (s e : Int) (hs : 0 ≤ s)
    (hse : s ≤ e) (hel : e ≤ (l.length : Int)) :
    (pySlice l s e).length = (e - s).toNat := by
  rw [pySlice_eq l s e hs (by omega) (by omega) hel]
  rw [List.length_take, List.length_drop]
  omega

theorem pyRowGet_mem (a : List (List ℚ)) (i : Int) (h0 : 0 ≤ i)
    (hlen : i < (a.length : Int)) : pyRowGet a i ∈ a := by
  unfold pyRowGet
  rw [if_pos h0]
  rw [List.getD_eq_getElem a [] (by omega)]
  exact List.getElem_mem _

/-- C5: the buffered filter apply fetches the superset window
`[start-100, end+100]` clamped to the data bounds, filters it, extracts
the sub-range at offset `start - buffer_start` with the original slice's
length, and adds the mean of the original unfiltered unbuffered slice to
every output sample for highpass/bandpass only (lowpass and any other kind
get no mean restoration); the output always has the original slice's
length. -/
theorem apply_filter_with_buffer_spec
    (flt : String → List ℚ → Option (List ℚ)) (data : List ℚ)
    (full_data : List (List ℚ)) (channel_idx start_time end_time : Int)
    (filter_type : String)
    (hflt : ∀ t l out, flt t l = some out → out.length = l.length)
    (hrect : ∀ row ∈ full_data, row.length = shape1 full_data)
    (hch0 : 0 ≤ channel_idx) (hch1 : channel_idx < (full_data.length : Int))
    (hs : 0 ≤ start_time) (hse : start_time ≤ end_time)
    (he : end_time ≤ (shape1 full_data : Int))
    (hdata : (data.length : Int) = end_time - start_time) :
    (apply_filter_with_buffer flt data full_data channel_idx start_time end_time
        filter_type 100).length = data.length ∧
    apply_filter_with_buffer flt data full_data channel_idx start_time end_time
        filter_type 100 =
      (if filter_type = "highpass" ∨ filter_type = "bandpass" then
        (((apply_filter flt
            (((pyRowGet full_data channel_idx).drop (max 0 (start_time - 100)).toNat).take
              ((min (shape1 full_data : Int) (end_time + 100) -
                max 0 (start_time - 100)).toNat))
            filter_type).drop
          (start_time - max 0 (start_time - 100)).toNat).take data.length).map
            (fun x => x + listMean data)
      else
        ((apply_filter flt
            (((pyRowGet full_data channel_idx).drop (max 0 (start_time - 100)).toNat).take
              ((min (shape1 full_data : Int) (end_time + 100) -
                max 0 (start_time - 100)).toNat))
            filter_type).drop
          (start_time - max 0 (start_time - 100)).toNat).take data.length) := by
  have hrow : (pyRowGet full_data channel_idx).length = shape1 full_data :=
    hrect _ (pyRowGet_mem _ _ hch0 hch1)
  have hb0 : (0:Int) ≤ max 0 (start_time - 100) := le_max_left _ _
  have hbs : max 0 (start_time - 100) ≤ start_time := by omega
  have hbe : end_time ≤ min ((shape1 full_data : Int)) (end_time + 100) := by omega
  have hbeN : min ((shape1 full_data : Int)) (end_time + 100) ≤ (shape1 full_data : Int) :=
    min_le_left _ _
  have hbuf : pySlice (pyRowGet full_data channel_idx) (max 0 (start_time - 100))
      (min ((shape1 full_data : Int)) (end_time + 100)) =
      ((pyRowGet full_data channel_idx).drop (max 0 (start_time - 100)).toNat).take
        ((min ((shape1 full_data : Int)) (end_time + 100) -
          max 0 (start_time - 100)).toNat) := by
    refine pySlice_eq _ _ _ hb0 (by omega) (by omega) (by omega)
  have hbuflen : (pySlice (pyRowGet full_data channel_idx) (max 0 (start_time - 100))
      (min ((shape1 full_data : Int)) (end_time + 100))).length =
      (min ((shape1 full_data : Int)) (end_time + 100) -
        max 0 (start_time - 100)).toNat := by
    refine pySlice_length _ _ _ hb0 (by omega) (by omega)
  have hflen : (apply_filter flt
      (pySlice (pyRowGet full_data channel_idx) (max 0 (start_time - 100))
        (min ((shape1 full_data : Int)) (end_time + 100))) filter_type).length =
      (min ((shape1 full_data : Int)) (end_time + 100) -
        max 0 (start_time - 100)).toNat := by
    rw [apply_filter_length flt hflt, hbuflen]
  have hext : pySlice (apply_filter flt
      (pySlice (pyRowGet full_data channel_idx) (max 0 (start_time - 100))
        (min ((shape1 full_data : Int)) (end_time + 100))) filter_type)
      (start_time - max 0 (start_time - 100))
      (start_time - max 0 (start_time - 100) + (data.length : Int)) =
      ((apply_filter flt
        (pySlice (pyRowGet full_data channel_idx) (max 0 (start_time - 100))
          (min ((shape1 full_data : Int)) (end_time + 100))) filter_type).drop
        (start_time - max 0 (start_time - 100)).toNat).take data.length := by
    rw [pySlice_eq _ _ _ (by omega) (by rw [hflen]; omega) (by omega)
      (by rw [hflen]; omega)]
    congr 1
    omega
  have hextlen : (((apply_filter flt
      (pySlice (pyRowGet full_data channel_idx) (max 0 (start_time - 100))
        (min ((shape1 full_data : Int)) (end_time + 100))) filter_type).drop
      (start_time - max 0 (start_time - 100)).toNat).take data.length).length =
      data.length := by
    rw [List.length_take, List.length_drop, hflen]
    omega
  constructor
  · simp only [apply_filter_with_buffer]
    rw [hbuf] at hext hextlen ⊢
    rw [hext]
    split
    · rw [List.length_map, hextlen]
    · exact hextlen
  · simp only [apply_filter_with_buffer]
    rw [hbuf] at hext ⊢
    rw [hext]

/-- Witness for C5: a 1×4 recording, window `[1, 3)`, identity filter
backend; the buffered apply returns a slice of the window's length. -/
theorem apply_filter_with_buffer_spec_witness :
    (apply_filter_with_buffer (fun _ l => some l) [(2:ℚ), 3] [[1, 2, 3, 4]] 0 1 3
      "highpass" 100).length = ([(2:ℚ), 3] : List ℚ).length :=
  (apply_filter_with_buffer_spec (fun _ l => some l) [(2:ℚ), 3] [[1, 2, 3, 4]] 0 1 3
    "highpass" (fun _ _ _ h => (Option.some_inj.mp h) ▸ rfl) (by decide) (by decide)
    (by decide) (by decide) (by decide) (by decide) (by decide)).1

/-! ### Channel-window plumbing shared by C1 and C8 -/

theorem apply_filter_with_buffer_length (flt : String → List ℚ → Option (List ℚ))
    (data : List ℚ) (full_data : List (List ℚ))
    (channel_idx start_time end_time : Int) (filter_type : String)
    (hflt : ∀ t l out, flt t l = some out → out.length = l.length)
    (hrect : ∀ row ∈ full_data, row.length = shape1 full_data)
    (hch0 : 0 ≤ channel_idx) (hch1 : channel_idx < (full_data.length : Int))
    (hs : 0 ≤ start_time) (hse : start_time ≤ end_time)
    (he : end_time ≤ (shape1 full_data : Int))
    (hdata : (data.length : Int) = end_time - start_time) :
    (apply_filter_with_buffer flt data full_data channel_idx start_time end_time
      filter_type 100).length = data.length := by
  have hrow : (pyRowGet full_data channel_idx).length = shape1 full_data :=
    hrect _ (pyRowGet_mem _ _ hch0 hch1)
  have hb0 : (0:Int) ≤ max 0 (start_time - 100) := le_max_left _ _
  have hbuflen : (pySlice (pyRowGet full_data channel_idx) (max 0 (start_time - 100))
      (min ((shape1 full_data : Int)) (end_time + 100))).length =
      (min ((shape1 full_data : Int)) (end_time + 100) -
        max 0 (start_time - 100)).toNat := by
    refine pySlice_length _ _ _ hb0 (by omega) (by omega)
  have hflen : (apply_filter flt
      (pySlice (pyRowGet full_data channel_idx) (max 0 (start_time - 100))
        (min ((shape1 full_data : Int)) (end_time + 100))) filter_type).length =
      (min ((shape1 full_data : Int)) (end_time + 100) -
        max 0 (start_time - 100)).toNat := by
    rw [apply_filter_length flt hflt, hbuflen]
  have hextlen : (pySlice (apply_filter flt
      (pySlice (pyRowGet full_data channel_idx) (max 0 (start_time - 100))
        (min ((shape1 full_data : Int)) (end_time + 100))) filter_type)
      (start_time - max 0 (start_time - 100))
      (start_time - max 0 (start_time - 100) + (data.length : Int))).length =
      data.length := by
    rw [pySlice_length _ _ _ (by omega) (by omega) (by rw [hflen]; omega)]
    omega
  simp only [apply_filter_with_buffer]
  split
  · rw [List.length_map]
    exact hextlen
  · exact hextlen

theorem get_channel_data_in_range (arr : List (List ℚ)) (cid s e : Int)
    (hcid1 : 1 ≤ cid) (hcid2 : cid ≤ (arr.length : Int)) :
    get_channel_data (some arr) cid s e =
      some (pySlice (pyRowGet arr (cid - 1)) (max 0 s) (min (shape1 arr : Int) e)) := by
  simp only [get_channel_data]
  rw [if_neg (by omega)]

theorem get_channel_data_out_of_range (arr : List (List ℚ)) (cid s e : Int)
    (h : cid < 1 ∨ (arr.length : Int) < cid) :
    get_channel_data (some arr) cid s e = none := by
  simp only [get_channel_data]
  rw [if_pos (by omega)]

theorem processChannel_isSome (flt : String → List ℚ → Option (List ℚ))
    (arr : List (List ℚ)) (cid : Int) (thr : Option ℚ) (inv : Bool) (s e : Int)
    (dt ft : String) (hcid1 : 1 ≤ cid) (hcid2 : cid ≤ (arr.length : Int)) :
    ∃ r, processChannel flt arr cid thr inv s e dt ft = some r := by
  unfold processChannel
  rw [get_channel_data_in_range arr cid s e hcid1 hcid2]
  exact ⟨_, rfl⟩

theorem processChannel_isNone (flt : String → List ℚ → Option (List ℚ))
    (arr : List (List ℚ)) (cid : Int) (thr : Option ℚ) (inv : Bool) (s e : Int)
    (dt ft : String) (h : cid < 1 ∨ (arr.length : Int) < cid) :
    processChannel flt arr cid thr inv s e dt ft = none := by
  unfold processChannel
  rw [get_channel_data_out_of_range arr cid s e h]

theorem processChannel_data_length (flt : String → List ℚ → Option (List ℚ))
    (arr : List (List ℚ)) (cid : Int) (thr : Option ℚ) (inv : Bool) (s e : Int)
    (dt ft : String)
    (hflt : ∀ t l out, flt t l = some out → out.length = l.length)
    (hrect : ∀ row ∈ arr, row.length = shape1 arr)
    (hcid1 : 1 ≤ cid) (hcid2 : cid ≤ (arr.length : Int))
    (hs0 : 0 ≤ s) (hse : s ≤ e) (heN : e ≤ (shape1 arr : Int)) :
    ∃ r, processChannel flt arr cid thr inv s e dt ft = some r ∧
      (r.data.length : Int) = e - s := by
  have hclamps : max 0 s = s := by omega
  have hclampe : min (shape1 arr : Int) e = e := by omega
  have hcd := get_channel_data_in_range arr cid s e hcid1 hcid2
  rw [hclamps, hclampe] at hcd
  have hrow : (pyRowGet arr (cid - 1)).length = shape1 arr :=
    hrect _ (pyRowGet_mem _ _ (by omega) (by omega))
  have hcdlen : (pySlice (pyRowGet arr (cid - 1)) s e).length = (e - s).toNat :=
    pySlice_length _ _ _ hs0 hse (by omega)
  have hfdlen : (apply_filter_with_buffer flt (pySlice (pyRowGet arr (cid - 1)) s e)
      arr (cid - 1) s e ft 100).length = (e - s).toNat := by
    rw [apply_filter_with_buffer_length flt _ arr _ s e ft hflt hrect (by omega)
      (by omega) hs0 hse heN (by rw [hcdlen]; omega), hcdlen]
  unfold processChannel
  rw [hcd]
  refine ⟨_, rfl, ?_⟩
  by_cases hft : ft = "none" <;> by_cases hdt1 : dt = "spikes" <;>
    by_cases hdt2 : dt = "filtered" <;> cases inv <;>
      simp [hft, hdt1, hdt2, List.length_map, hcdlen, hfdlen] <;> omega

theorem get_real_data_eq (flt : String → List ℚ → Option (List ℚ))
    (arr : List (List ℚ)) (channels : List Int) (thr : Option ℚ) (inv : Bool)
    (s e : Int) (dt ft : String) :
    get_real_data flt (some arr) channels thr inv s e dt ft =
      channels.filterMap (fun cid =>
        (processChannel flt arr cid thr inv (max 0 s) (min (shape1 arr : Int) e)
          dt ft).map (fun r => (cid, r))) := rfl

/-! ### C1: window length of the channel-window query -/

/-- C1 counterexample: a loaded 1×10 recording (sample_count = 10), valid
channel 1, `start = 30 > sample_count`, `end = 31 > start`.  After the
route clamp the returned per-channel sample list is empty (length 0), but
the claimed formula `min(end, sample_count) - max(0, start)` evaluates to
`-20`, so the claim's equality fails. -/
theorem channel_window_length_counterexample :
    (get_real_data (fun _ _ => none) (some [List.replicate 10 (0:ℚ)]) [1] none false 30
      (clampEndTime 30 31) "raw" "none").map (fun p => (p.2.data.length : Int)) = [0] ∧
    min (clampEndTime 30 31) (10 : Int) - max 0 30 = -20 := by
  constructor
  · decide
  · decide

/-- C1 (amended): for a loaded recording, a valid channel, and any window
with `0 ≤ start ≤ sample_count` and `end > start`, the returned per-channel
sample list has length `min(end, sample_count) - max(0, start)` after `end`
has been clamped to `start + 20000`, and that length never exceeds 20000. -/
theorem channel_window_length_amended (flt : String → List ℚ → Option (List ℚ))
    (arr : List (List ℚ)) (channels : List Int) (cid : Int) (thr : Option ℚ)
    (inv : Bool) (start_time end_time : Int) (dt ft : String)
    (hflt : ∀ t l out, flt t l = some out → out.length = l.length)
    (hrect : ∀ row ∈ arr, row.length = shape1 arr)
    (hmem : cid ∈ channels) (hcid1 : 1 ≤ cid) (hcid2 : cid ≤ (arr.length : Int))
    (hs0 : 0 ≤ start_time) (hsN : start_time ≤ (shape1 arr : Int))
    (hlt : start_time < end_time) :
    ∃ r, (cid, r) ∈ get_real_data flt (some arr) channels thr inv start_time
        (clampEndTime start_time end_time) dt ft ∧
      (r.data.length : Int) =
        min (clampEndTime start_time end_time) (shape1 arr : Int) - max 0 start_time ∧
      r.data.length ≤ 20000 := by
  have hEndC : clampEndTime start_time end_time = min end_time (start_time + 20000) := rfl
  have h1 : max 0 start_time = start_time := by omega
  have hse : start_time ≤ min (shape1 arr : Int) (clampEndTime start_time end_time) := by
    rw [hEndC]; omega
  obtain ⟨r, hpc, hlen⟩ := processChannel_data_length flt arr cid thr inv start_time
    (min (shape1 arr : Int) (clampEndTime start_time end_time)) dt ft hflt hrect
    hcid1 hcid2 hs0 hse (min_le_left _ _)
  refine ⟨r, ?_, ?_, ?_⟩
  · rw [get_real_data_eq]
    refine List.mem_filterMap.mpr ⟨cid, hmem, ?_⟩
    rw [h1, hpc]
    rfl
  · rw [hlen]; omega
  · have h20 : (r.data.length : Int) ≤ 20000 := by rw [hlen, hEndC]; omega
    omega

/-- Witness for C1 (amended) on a 1×5 recording, channel 1, window
`[0, 3)`. -/
theorem channel_window_length_amended_witness :
    ∃ r, ((1 : Int), r) ∈ get_real_data (fun _ _ => none)
        (some [[(0:ℚ), 1, 2, 3, 4]]) [1] none false 0 (clampEndTime 0 3) "raw" "none" ∧
      (r.data.length : Int) =
        min (clampEndTime 0 3) ((shape1 [[(0:ℚ), 1, 2, 3, 4]] : Nat) : Int) - max 0 0 ∧
      r.data.length ≤ 20000 :=
  channel_window_length_amended (fun _ _ => none) [[(0:ℚ), 1, 2, 3, 4]] [1] 1 none false
    0 3 "raw" "none" (fun _ _ _ h => Option.noConfusion h) (by decide) (by decide)
    (by decide) (by decide) (by decide) (by decide) (by decide)

/-! ### C8: invalid channels are silently skipped -/

set_option maxRecDepth 100000 in
/-- C8: a requested channel id outside `[1, channel_count]` contributes no
entry to the batch result, every valid requested id does contribute, and
concretely requesting `[1, 999]` on a 385-channel recording returns a
result keyed by channel 1 only. -/
theorem get_real_data_invalid_channel_skipped (flt : String → List ℚ → Option (List ℚ))
    (arr : List (List ℚ)) (channels : List Int) (thr : Option ℚ) (inv : Bool)
    (s e : Int) (dt ft : String) :
    (∀ cid ∈ channels, (cid < 1 ∨ (arr.length : Int) < cid) →
      cid ∉ (get_real_data flt (some arr) channels thr inv s e dt ft).map Prod.fst) ∧
    (∀ cid ∈ channels, 1 ≤ cid → cid ≤ (arr.length : Int) →
      cid ∈ (get_real_data flt (some arr) channels thr inv s e dt ft).map Prod.fst) ∧
    (get_real_data (fun _ _ => none) (some (List.replicate 385 (List.replicate 4 (0:ℚ))))
      [1, 999] none false 0 4 "raw" "none").map Prod.fst = [1] := by
  refine ⟨?_, ?_, by decide⟩
  · intro cid hcid hbad hmem
    rw [get_real_data_eq] at hmem
    rw [List.mem_map] at hmem
    obtain ⟨⟨cid', r⟩, hpr, hfst⟩ := hmem
    rw [List.mem_filterMap] at hpr
    obtain ⟨a, ha, hpa⟩ := hpr
    cases hproc : processChannel flt arr a thr inv (max 0 s) (min (shape1 arr : Int) e)
        dt ft with
    | none => rw [hproc] at hpa; simp at hpa
    | some r' =>
      rw [hproc] at hpa
      simp only [Option.map_some', Option.some.injEq, Prod.mk.injEq] at hpa
      obtain ⟨hac, -⟩ := hpa
      have hfst' : cid' = cid := hfst
      rw [processChannel_isNone flt arr a thr inv _ _ dt ft
        (by rw [hac, hfst']; exact hbad)] at hproc
      exact Option.noConfusion hproc
  · intro cid hcid h1 h2
    obtain ⟨r, hpc⟩ := processChannel_isSome flt arr cid thr inv (max 0 s)
      (min (shape1 arr : Int) e) dt ft h1 h2
    rw [get_real_data_eq]
    exact List.mem_map.mpr ⟨(cid, r),
      List.mem_filterMap.mpr ⟨cid, hcid, by rw [hpc]; rfl⟩, rfl⟩

/-- Witness for C8: channel 2 of a 3-channel recording is valid and
appears among the returned keys. -/
theorem get_real_data_invalid_channel_skipped_witness :
    (2 : Int) ∈ (get_real_data (fun _ _ => none) (some [[(0:ℚ)], [1], [2]]) [2, 7]
      none false 0 1 "raw" "none").map Prod.fst :=
  (get_real_data_invalid_channel_skipped (fun _ _ => none) [[(0:ℚ)], [1], [2]] [2, 7]
    none false 0 1 "raw" "none").2.1 2 (by decide) (by decide) (by decide)

/-! ### C4: TorchBCI persistence round trip -/

theorem pyAstypeInt_intCast (z : Int) : pyAstypeInt ((z : Int) : ℚ) = z := by
  unfold pyAstypeInt
  rw [Rat.num_intCast, Rat.den_intCast]
  simp

theorem pyAstypeInt_natCast (k : Nat) : pyAstypeInt ((k : Nat) : ℚ) = (k : Int) := by
  have h : ((k : Nat) : ℚ) = ((k : Int) : ℚ) := by norm_cast
  rw [h, pyAstypeInt_intCast]

theorem spikeRow_cid (k : Nat) (s : SpikeRec) :
    pyAstypeInt (spikeRow k s).cluster_id = (k : Int) :=
  pyAstypeInt_natCast k

theorem rowsFrom_cid_ge (results : List (List SpikeRec)) :
    ∀ (k : Nat), ∀ r ∈ torchbciRowsFrom k results, (k : Int) ≤ pyAstypeInt r.cluster_id := by
  induction results with
  | nil => intro k r hr; simp [torchbciRowsFrom] at hr
  | cons cl rest ih =>
    intro k r hr
    rw [torchbciRowsFrom, List.mem_append] at hr
    rcases hr with h | h
    · obtain ⟨s, -, rfl⟩ := List.mem_map.mp h
      rw [spikeRow_cid]
    · have := ih (k + 1) r h
      omega

theorem rowsFrom_cid_mem (results : List (List SpikeRec)) :
    ∀ (k : Nat), (∀ c ∈ results, c ≠ []) → ∀ x : Int,
      ((∃ r ∈ torchbciRowsFrom k results, pyAstypeInt r.cluster_id = x) ↔
        ∃ j : Nat, j < results.length ∧ x = ((k + j : Nat) : Int)) := by
  induction results with
  | nil => intro k _ x; simp [torchbciRowsFrom]
  | cons cl rest ih =>
    intro k hne x
    have hne' : ∀ c ∈ rest, c ≠ [] := fun c hc => hne c (List.mem_cons_of_mem _ hc)
    constructor
    · rintro ⟨r, hr, rfl⟩
      rw [torchbciRowsFrom, List.mem_append] at hr
      rcases hr with h | h
      · obtain ⟨s, -, rfl⟩ := List.mem_map.mp h
        exact ⟨0, by simp, by rw [spikeRow_cid]; norm_num⟩
      · obtain ⟨j, hj, hx⟩ := (ih (k + 1) hne' _).mp ⟨r, h, rfl⟩
        refine ⟨j + 1, by simp; omega, ?_⟩
        rw [hx]
        congr 1
        omega
    · rintro ⟨j, hj, rfl⟩
      cases j with
      | zero =>
        obtain ⟨s, hs⟩ := List.exists_mem_of_ne_nil cl (hne cl (List.mem_cons_self _ _))
        refine ⟨spikeRow k s, ?_, by rw [spikeRow_cid]; norm_num⟩
        rw [torchbciRowsFrom, List.mem_append]
        exact Or.inl (List.mem_map.mpr ⟨s, hs, rfl⟩)
      | succ j =>
        have hj' : j < rest.length := by simpa using hj
        obtain ⟨r, hr, hcid⟩ := (ih (k + 1) hne' (((k + 1) + j : Nat) : Int)).mpr
          ⟨j, hj', rfl⟩
        refine ⟨r, ?_, ?_⟩
        · rw [torchbciRowsFrom, List.mem_append]
          exact Or.inr hr
        · rw [hcid]
          congr 1
          omega

theorem rowsFrom_filter (results : List (List SpikeRec)) :
    ∀ (k j : Nat), j < results.length →
      (torchbciRowsFrom k results).filter
          (fun r => decide (pyAstypeInt r.cluster_id = ((k + j : Nat) : Int))) =
        (results.getD j []).map (spikeRow (k + j)) := by
  induction results with
  | nil => intro k j hj; simp at hj
  | cons cl rest ih =>
    intro k j hj
    rw [torchbciRowsFrom, List.filter_append]
    cases j with
    | zero =>
      have hhead : (cl.map (spikeRow k)).filter
          (fun r => decide (pyAstypeInt r.cluster_id = ((k + 0 : Nat) : Int))) =
          cl.map (spikeRow k) := by
        apply List.filter_eq_self.mpr
        intro r hr
        obtain ⟨s, -, rfl⟩ := List.mem_map.mp hr
        simp [spikeRow_cid]
      have htail : (torchbciRowsFrom (k + 1) rest).filter
          (fun r => decide (pyAstypeInt r.cluster_id = ((k + 0 : Nat) : Int))) = [] := by
        apply List.filter_eq_nil_iff.mpr
        intro r hr
        have := rowsFrom_cid_ge rest (k + 1) r hr
        simp only [decide_eq_true_eq]
        omega
      rw [hhead, htail, List.append_nil, List.getD_cons_zero]
      norm_num
    | succ j =>
      have hhead : (cl.map (spikeRow k)).filter
          (fun r => decide (pyAstypeInt r.cluster_id = ((k + (j + 1) : Nat) : Int))) =
          [] := by
        apply List.filter_eq_nil_iff.mpr
        intro r hr
        obtain ⟨s, -, rfl⟩ := List.mem_map.mp hr
        rw [spikeRow_cid]
        simp only [decide_eq_true_eq]
        omega
      have hj' : j < rest.length := by simpa using hj
      have htail := ih (k + 1) j hj'
      have harg : ((k + 1) + j : Nat) = (k + (j + 1) : Nat) := by omega
      rw [harg] at htail
      rw [hhead, htail, List.nil_append, List.getD_cons_succ]

theorem buildCluster_map_spikeRow (k : Nat) (cl : List SpikeRec) :
    ∀ i, buildCluster i (cl.map (spikeRow k)) = reindexFrom i cl := by
  induction cl with
  | nil => intro i; rfl
  | cons s rest ih =>
    intro i
    rw [List.map_cons]
    unfold buildCluster reindexFrom
    rw [ih (i + 1)]
    simp [spikeRow, pyAstypeInt_intCast]

theorem reindexFrom_length (cl : List SpikeRec) :
    ∀ i, (reindexFrom i cl).length = cl.length := by
  induction cl with
  | nil => intro i; rfl
  | cons s rest ih => intro i; unfold reindexFrom; rw [List.length_cons, List.length_cons, ih]

theorem reindexFrom_map_key (cl : List SpikeRec) :
    ∀ i, (reindexFrom i cl).map spikeKey = cl.map spikeKey := by
  induction cl with
  | nil => intro i; rfl
  | cons s rest ih =>
    intro i
    unfold reindexFrom
    rw [List.map_cons, List.map_cons, ih]
    rfl

theorem map_range_getD {α β : Type} (d : α) (f : α → β) :
    ∀ (l : List α), (List.range l.length).map (fun j => f (l.getD j d)) = l.map f := by
  intro l
  induction l with
  | nil => rfl
  | cons a rest ih =>
    rw [List.length_cons, List.range_succ_eq_map, List.map_cons, List.map_map]
    rw [List.map_cons]
    congr 1

theorem sortedUnique_nodup (l : List Int) : (sortedUnique l).Nodup := by
  unfold sortedUnique
  exact ((List.perm_insertionSort _ _).nodup_iff).mpr (List.nodup_dedup l)

theorem sortedUnique_rowsCids (results : List (List SpikeRec))
    (hne : ∀ c ∈ results, c ≠ []) :
    sortedUnique ((torchbciRows results).map (fun r => pyAstypeInt r.cluster_id)) =
      (List.range results.length).map (fun j : Nat => (j : Int)) := by
  have hnd1 : (sortedUnique ((torchbciRows results).map
      (fun r => pyAstypeInt r.cluster_id))).Nodup := sortedUnique_nodup _
  have hnd2 : ((List.range results.length).map (fun j : Nat => (j : Int))).Nodup := by
    refine List.Nodup.map ?_ (List.nodup_range _)
    intro a b hab
    exact Nat.cast_injective hab
  have hmemiff : ∀ x : Int,
      (x ∈ sortedUnique ((torchbciRows results).map (fun r => pyAstypeInt r.cluster_id)) ↔
        x ∈ (List.range results.length).map (fun j : Nat => (j : Int))) := by
    intro x
    rw [mem_sortedUnique, List.mem_map, List.mem_map]
    constructor
    · rintro ⟨r, hr, rfl⟩
      obtain ⟨j, hj, hx⟩ := (rowsFrom_cid_mem results 0 hne _).mp ⟨r, hr, rfl⟩
      refine ⟨j, List.mem_range.mpr hj, ?_⟩
      rw [hx]
      norm_num
    · rintro ⟨j, hj, rfl⟩
      obtain ⟨r, hr, hcid⟩ := (rowsFrom_cid_mem results 0 hne (((0 + j : Nat) : Int))).mpr
        ⟨j, List.mem_range.mp hj, rfl⟩
      refine ⟨r, hr, ?_⟩
      rw [hcid]
      norm_num
  have hperm : List.Perm
      (sortedUnique ((torchbciRows results).map (fun r => pyAstypeInt r.cluster_id)))
      ((List.range results.length).map (fun j : Nat => (j : Int))) :=
    (List.perm_ext_iff_of_nodup hnd1 hnd2).mpr hmemiff
  have hs1 : (sortedUnique ((torchbciRows results).map
      (fun r => pyAstypeInt r.cluster_id))).Sorted (fun a b : Int => a < b) := by
    have hle := sortedUnique_sorted ((torchbciRows results).map
      (fun r => pyAstypeInt r.cluster_id))
    exact (hle.and hnd1).imp (fun h => lt_of_le_of_ne h.1 h.2)
  have hs2 : ((List.range results.length).map (fun j : Nat => (j : Int))).Sorted
      (fun a b : Int => a < b) := by
    refine List.Pairwise.map _ ?_ (List.pairwise_lt_range results.length)
    intro a b hab
    exact_mod_cast hab
  exact List.eq_of_perm_of_sorted hperm hs1 hs2

theorem load_roundtrip_struct (results : List (List SpikeRec))
    (hne : ∀ c ∈ results, c ≠ []) :
    load_preprocessed_torchbci (torchbciRows results) = results.map (reindexFrom 0) := by
  simp only [load_preprocessed_torchbci]
  rw [sortedUnique_rowsCids results hne, List.map_map]
  have hstep : ∀ j ∈ List.range results.length,
      ((fun cid => buildCluster 0 ((torchbciRows results).filter
        (fun r => decide (pyAstypeInt r.cluster_id = cid)))) ∘ (fun j : Nat => (j : Int))) j =
      reindexFrom 0 (results.getD j []) := by
    intro j hj
    have hfil := rowsFrom_filter results 0 j (List.mem_range.mp hj)
    rw [Nat.zero_add] at hfil
    show buildCluster 0 ((torchbciRowsFrom 0 results).filter
      (fun r => decide (pyAstypeInt r.cluster_id = ((j : Nat) : Int)))) =
      reindexFrom 0 (results.getD j [])
    rw [hfil, buildCluster_map_spikeRow]
  rw [List.map_congr_left hstep, map_range_getD [] (reindexFrom 0) results]

/-- C4 counterexample: a current ClusterSet `[[], [spike]]` with an empty
first cluster.  The save loop emits rows only for nonempty clusters, so the
persisted array tags the lone spike with cluster id 1; reloading groups by
the surviving ids and rebuilds a single cluster — the cluster count drops
from 2 to 1, so persist-then-reload is not an equivalence on this input. -/
theorem torchbci_roundtrip_counterexample :
    (load_preprocessed_torchbci (torchbciRows
      [[], [⟨1, 2, 3, 4, 0⟩]])).length = 1 ∧
    ([[], [(⟨1, 2, 3, 4, 0⟩ : SpikeRec)]] : List (List SpikeRec)).length = 2 := by
  constructor
  · decide
  · decide

/-- C4 (amended): provided every cluster of the current ClusterSet is
nonempty, persisting to the flat `[x, y, cluster_id, time, channel]` array
and reloading reproduces an equivalent ClusterSet: the same number of
clusters, the same per-cluster spike counts, and for each spike the same
`(x, y, time, channel)` tuple (exactly — the float64 round trip is exact
on these values). -/
theorem torchbci_roundtrip_amended (results : List (List SpikeRec))
    (hne : ∀ c ∈ results, c ≠ []) :
    (load_preprocessed_torchbci (torchbciRows results)).length = results.length ∧
    (load_preprocessed_torchbci (torchbciRows results)).map List.length =
      results.map List.length ∧
    (load_preprocessed_torchbci (torchbciRows results)).map (List.map spikeKey) =
      results.map (List.map spikeKey) := by
  rw [load_roundtrip_struct results hne]
  refine ⟨by rw [List.length_map], ?_, ?_⟩
  · rw [List.map_map]
    apply List.map_congr_left
    intro cl _
    exact reindexFrom_length cl 0
  · rw [List.map_map]
    apply List.map_congr_left
    intro cl _
    exact reindexFrom_map_key cl 0

/-- Witness for C4 (amended) on the one-cluster set `[[⟨1, 2, 3, 4, 5⟩]]`. -/
theorem torchbci_roundtrip_amended_witness :
    (load_preprocessed_torchbci (torchbciRows [[⟨1, 2, 3, 4, 5⟩]])).length =
      ([[(⟨1, 2, 3, 4, 5⟩ : SpikeRec)]] : List (List SpikeRec)).length :=
  (torchbci_roundtrip_amended [[⟨1, 2, 3, 4, 5⟩]] (by decide)).1
